import Mathlib

/-!
Shallow embedding of the hybridautoscaler repository (src/reactivemodel.py,
the offline batch replay, and src/reactive.py, the live control loop).

Conventions of the embedding:
* Python floats carrying rates and timestamps become rationals; the only
  non-finite threshold value, the positive infinity stored as the scale-up
  threshold for 5 replicas, is modelled by the value none of Option, with
  comparison helpers ltUp and geUp reproducing the float comparisons
  against infinity (x < inf is always true, x >= inf is always false for
  finite x).
* The Python dict RPS_THRESHOLDS becomes a function into Option: a missing
  key, which in Python raises KeyError, yields none, and every function
  that can hit such a lookup returns Option, none standing for the raised
  exception.
* Human readable reason strings are elided: they are formatting only.
* Service identifiers (Python strings) are modelled by natural numbers;
  only their identity matters to the logic.
-/

namespace Autoscaler

/-- Configuration constant MIN_REPLICAS = 1 (both files). -/
def MIN_REPLICAS : ℕ := 1

/-- Configuration constant MAX_REPLICAS = 10 (both files). -/
def MAX_REPLICAS : ℕ := 10

/-- Configuration constant COOLDOWN_PERIOD = 60 seconds (both files). -/
def COOLDOWN_PERIOD : ℤ := 60

/-- Configuration constant EMA_ALPHA = 0.7 (both files). -/
def EMA_ALPHA : ℚ := 7/10

/-- Configuration constant CONTROL_INTERVAL = 30 seconds (reactivemodel.py). -/
def CONTROL_INTERVAL : ℤ := 30

/-- The RPS threshold dict of both files: replica count to
(scale up threshold, scale down threshold). The scale up threshold is an
Option, none standing for the float infinity stored at key 5. A key
outside 1..5 is absent from the Python dict (lookup raises KeyError),
modelled by the outer none. -/
def RPS_THRESHOLDS : ℕ → Option (Option ℚ × ℚ)
  | 1 => some (some 10, 0)
  | 2 => some (some 30, 8)
  | 3 => some (some 60, 25)
  | 4 => some (some 100, 50)
  | 5 => some (none, 90)
  | _ => none

/-- Comparison x < u where u may be the float infinity (none). -/
def ltUp (x : ℚ) : Option ℚ → Bool
  | none => true
  | some q => decide (x < q)

/-- Comparison x >= u where u may be the float infinity (none). -/
def geUp (x : ℚ) : Option ℚ → Bool
  | none => false
  | some q => decide (q ≤ x)

/-- The pure numeric core of update_smoothed_rps in both files: a smoothed
value of exactly zero is the uninitialized sentinel and is replaced by the
sample; otherwise the exponential moving average with weight alpha is
taken. -/
def ema_update (alpha smoothed new_rps : ℚ) : ℚ :=
  if smoothed = 0 then new_rps else alpha * new_rps + (1 - alpha) * smoothed

/-- Per service mutable record of reactivemodel.py (ServiceState):
history entries are (time, replicas, rps) with the reason string elided. -/
structure ServiceState where
  current_replicas : ℕ
  raw_rps : ℚ
  smoothed_rps : ℚ
  last_scale_time : ℤ
  scale_history : List (ℤ × ℕ × ℚ)
deriving DecidableEq, Repr

/-- The state produced lazily by defaultdict(ServiceState) in the batch
driver: all fields at their dataclass defaults. -/
def initServiceState : ServiceState :=
  { current_replicas := 1, raw_rps := 0, smoothed_rps := 0
    last_scale_time := 0, scale_history := [] }

/-- update_smoothed_rps of reactivemodel.py: writes the smoothed and raw
rate fields of the state and is otherwise the numeric core. The engine
method of reactive.py is identical with alpha drawn from the config. -/
def update_smoothed_rps (alpha : ℚ) (state : ServiceState) (new_rps : ℚ) : ServiceState :=
  { state with smoothed_rps := ema_update alpha state.smoothed_rps new_rps
               raw_rps := new_rps }

/-- Outcome of a linear scan over replica counts inside
desired_replicas_with_hysteresis: a hit, falling off the end of the range,
or a KeyError raised by a missing threshold entry. -/
inductive ScanOut where
  | found (r : ℕ)
  | exhausted
  | keyError
deriving DecidableEq, Repr

/-- The upward scan of desired_replicas_with_hysteresis: for replicas in
range(current+1, MAX+1), look the threshold pair up (KeyError when
missing) and return the first count whose scale up threshold strictly
exceeds the rate. -/
def scanUp (x : ℚ) : List ℕ → ScanOut
  | [] => .exhausted
  | r :: rest =>
    match RPS_THRESHOLDS r with
    | none => .keyError
    | some (u, _) => if ltUp x u then .found r else scanUp x rest

/-- The downward scan of desired_replicas_with_hysteresis: for replicas in
range(current-1, MIN-1, -1), return the first count whose scale down
threshold the rate meets, or the floor MIN. -/
def scanDown (x : ℚ) : List ℕ → ScanOut
  | [] => .exhausted
  | r :: rest =>
    match RPS_THRESHOLDS r with
    | none => .keyError
    | some (_, d) =>
      if decide (d ≤ x) || decide (r = MIN_REPLICAS) then .found r else scanDown x rest

/-- The list range(current+1, MAX_REPLICAS+1). -/
def upRange (current : ℕ) : List ℕ := List.range' (current + 1) (MAX_REPLICAS - current)

/-- The list range(current-1, MIN_REPLICAS-1, -1). -/
def downRange (current : ℕ) : List ℕ :=
  (List.range' MIN_REPLICAS (current - MIN_REPLICAS)).reverse

/-- desired_replicas_with_hysteresis of reactivemodel.py (the method
desired_replicas of ReactiveScalingEngine in reactive.py is the same
logic): look the current threshold pair up, try the scale up branch, then
the scale down branch, else stay. none models a raised KeyError. -/
def desired_replicas_with_hysteresis (current : ℕ) (x : ℚ) : Option ℕ :=
  match RPS_THRESHOLDS current with
  | none => none
  | some (u, d) =>
    if geUp x u && decide (current < MAX_REPLICAS) then
      match scanUp x (upRange current) with
      | .found r => some r
      | .exhausted => some MAX_REPLICAS
      | .keyError => none
    else if decide (x < d) && decide (MIN_REPLICAS < current) then
      match scanDown x (downRange current) with
      | .found r => some r
      | .exhausted => some MIN_REPLICAS
      | .keyError => none
    else some current

/-- should_scale of reactivemodel.py: a no-op is always permitted, a real
change is permitted only when the time since the last recorded scaling
action has reached COOLDOWN_PERIOD. The reason string is elided. -/
def should_scale (state : ServiceState) (current_time : ℤ) (desired : ℕ) : Bool :=
  if desired = state.current_replicas then true
  else if current_time - state.last_scale_time < COOLDOWN_PERIOD then false
  else true

/-- Action column of the batch driver output. -/
inductive Action where
  | upscale
  | downscale
  | blocked
  | nochange
deriving DecidableEq, Repr

/-- An applied action is one that changed the replica count. -/
def Action.applied : Action → Bool
  | .upscale => true
  | .downscale => true
  | _ => false

/-- One result row of the batch driver (the events dict of
reactivemodel.py, service name and reason string elided). -/
structure Row where
  raw_rps : ℚ
  smoothed_rps : ℚ
  prev_replicas : ℕ
  new_replicas : ℕ
  action : Action
deriving DecidableEq, Repr

/-- One iteration of the per row loop of main in reactivemodel.py for a
single service: smoothing update, hysteresis decision, cooldown check,
decision application, history append, result row. none models the
KeyError that the hysteresis lookup would raise. -/
def stepRow (state : ServiceState) (time_bucket : ℤ) (raw_rps : ℚ) :
    Option (ServiceState × Row) :=
  let s1 := update_smoothed_rps EMA_ALPHA state raw_rps
  let smoothed := s1.smoothed_rps
  match desired_replicas_with_hysteresis s1.current_replicas smoothed with
  | none => none
  | some desired =>
    let can_scale := should_scale s1 time_bucket desired
    let prev := s1.current_replicas
    let su :=
      if prev < desired then
        if can_scale then
          ({ s1 with current_replicas := desired, last_scale_time := time_bucket },
            Action.upscale)
        else (s1, Action.blocked)
      else if desired < prev then
        if can_scale then
          ({ s1 with current_replicas := desired, last_scale_time := time_bucket },
            Action.downscale)
        else (s1, Action.blocked)
      else (s1, Action.nochange)
    let s2 := su.1
    let s3 := { s2 with
      scale_history := s2.scale_history ++ [(time_bucket, s2.current_replicas, smoothed)] }
    some (s3, { raw_rps := raw_rps, smoothed_rps := smoothed, prev_replicas := prev,
                new_replicas := s2.current_replicas, action := su.2 })

/-- The batch driver run restricted to one service: fold stepRow over the
(time bucket, aggregated rate) rows of that service in input order,
collecting the time buckets of the applied scaling actions. none models
an uncaught exception aborting the run. -/
def runBatch (state : ServiceState) : List (ℤ × ℚ) → Option (ServiceState × List ℤ)
  | [] => some (state, [])
  | (t, raw) :: rest =>
    match stepRow state t raw with
    | none => none
    | some (s1, row) =>
      match runBatch s1 rest with
      | none => none
      | some (s2, ts) =>
        some (s2, if row.action.applied then t :: ts else ts)

/-- Time buckets of the applied scaling actions of a full batch run for
one service starting from the lazily created fresh state. -/
def appliedTimes (rows : List (ℤ × ℚ)) : Option (List ℤ) :=
  (runBatch initServiceState rows).map Prod.snd

/-- The smoothed value stored after feeding a sample list through
update_smoothed_rps on a fresh ServiceState. -/
def smoothedAfter (alpha : ℚ) (samples : List ℚ) : ℚ :=
  (samples.foldl (update_smoothed_rps alpha) initServiceState).smoothed_rps

/-- Per service mutable record of reactive.py (ServiceState there): its
clock values are floats from time.time , modelled by rationals. A history
entry is (timestamp, from replicas, to replicas, smoothed rps) with the
iso string and reason elided. -/
structure LiveServiceState where
  service_name : ℕ
  current_replicas : ℕ
  raw_rps : ℚ
  smoothed_rps : ℚ
  last_scale_time : ℚ
  scale_history : List (ℚ × ℕ × ℕ × ℚ)
deriving DecidableEq, Repr

/-- The state produced lazily by the defaultdict of LiveReactiveAutoscaler:
dataclass defaults with an anonymous service name. -/
def initLiveServiceState : LiveServiceState :=
  { service_name := 0, current_replicas := 1, raw_rps := 0, smoothed_rps := 0
    last_scale_time := 0, scale_history := [] }

/-- should_scale of ReactiveScalingEngine in reactive.py, with the wall
clock injected as now. -/
def live_should_scale (state : LiveServiceState) (now : ℚ) (desired : ℕ) : Bool :=
  if desired = state.current_replicas then true
  else if now - state.last_scale_time < (COOLDOWN_PERIOD : ℚ) then false
  else true

/-- process_service of LiveReactiveAutoscaler, with its external
collaborators injected: rps is the Prometheus answer (none when absent),
k8s_replicas the control plane replica lookup (none on failure), scale_ok
the success flag of the actuation call, now the wall clock. The returned
state is the content of the per service record after the call, including
the case where the hysteresis lookup raises (the exception is caught by
the caller, and the mutations already made persist). -/
def process_service (service : ℕ) (state : LiveServiceState) (rps : Option ℚ)
    (k8s_replicas : Option ℕ) (scale_ok : Bool) (now : ℚ) : LiveServiceState :=
  let s0 := { state with service_name := service }
  match rps with
  | none => s0
  | some r =>
    let s1 := { s0 with smoothed_rps := ema_update EMA_ALPHA s0.smoothed_rps r
                        raw_rps := r }
    match k8s_replicas with
    | none => s1
    | some k =>
      let s2 := { s1 with current_replicas := k }
      match desired_replicas_with_hysteresis k s1.smoothed_rps with
      | none => s2
      | some desired =>
        if desired = k then s2
        else if live_should_scale s2 now desired then
          if scale_ok then
            { s2 with current_replicas := desired, last_scale_time := now
                      scale_history := s2.scale_history ++ [(now, k, desired, s1.smoothed_rps)] }
          else s2
        else s2

/-- One input row of the batch dataset after the numeric coercion and
dropna steps: (item, timestamp, request_rate). -/
structure InputRow where
  item : ℕ
  timestamp : ℚ
  request_rate : ℚ
deriving DecidableEq, Repr

/-- Time bucket of a timestamp: (timestamp // CONTROL_INTERVAL) *
CONTROL_INTERVAL with Python floor division. -/
def bucketOf (t : ℚ) : ℤ := ⌊t / (CONTROL_INTERVAL : ℚ)⌋ * CONTROL_INTERVAL

/-- Group key of a row: (time_bucket, item). -/
def rowKey (r : InputRow) : ℤ × ℕ := (bucketOf r.timestamp, r.item)

/-- Aggregated rate of a (bucket, item) key: the sum of request_rate over
the rows of that key, as computed by the pandas groupby sum. -/
def totalFor (rows : List InputRow) (k : ℤ × ℕ) : ℚ :=
  ((rows.filter (fun r => decide (rowKey r = k))).map (fun r => r.request_rate)).sum

/-- Ascending order on (time_bucket, item) keys used by sort_values. -/
def keyLe (a b : ℤ × ℕ) : Bool :=
  decide (a.1 < b.1) || (decide (a.1 = b.1) && decide (a.2 ≤ b.2))

/-- The grouped table of main in reactivemodel.py: one row per distinct
(time_bucket, item) key carrying the summed rate, sorted ascending by
key. -/
def aggregate (rows : List InputRow) : List ((ℤ × ℕ) × ℚ) :=
  (((rows.map rowKey).dedup).map (fun k => (k, totalFor rows k))).mergeSort
    (fun a b => keyLe a.1 b.1)

/-- A replica count qualifies as a stop for the upward scan at rate x when
its threshold entry exists and its scale up threshold strictly exceeds x. -/
def upQualifies (x : ℚ) (r : ℕ) : Prop :=
  ∃ u d, RPS_THRESHOLDS r = some (u, d) ∧ ltUp x u = true

/- ===================== helper lemmas ===================== -/

lemma table_dom {c : ℕ} {p : Option ℚ × ℚ} (h : RPS_THRESHOLDS c = some p) :
    c = 1 ∨ c = 2 ∨ c = 3 ∨ c = 4 ∨ c = 5 := by
  match c with
  | 1 => omega
  | 2 => omega
  | 3 => omega
  | 4 => omega
  | 5 => omega
  | 0 => simp [RPS_THRESHOLDS] at h
  | (n+6) => simp [RPS_THRESHOLDS] at h

lemma desired_one (x : ℚ) :
    desired_replicas_with_hysteresis 1 x =
      some (if x < 10 then 1 else if x < 30 then 2 else if x < 60 then 3
            else if x < 100 then 4 else 5) := by
  simp only [desired_replicas_with_hysteresis, RPS_THRESHOLDS, geUp, ltUp, scanUp, scanDown,
    upRange, downRange, MAX_REPLICAS, MIN_REPLICAS]
  norm_num [List.range']
  split_ifs <;> first | rfl | linarith

lemma desired_two (x : ℚ) :
    desired_replicas_with_hysteresis 2 x =
      some (if 30 ≤ x then (if x < 60 then 3 else if x < 100 then 4 else 5)
            else if x < 8 then 1 else 2) := by
  simp only [desired_replicas_with_hysteresis, RPS_THRESHOLDS, geUp, ltUp, scanUp, scanDown,
    upRange, downRange, MAX_REPLICAS, MIN_REPLICAS]
  norm_num [List.range']
  split_ifs <;> first | rfl | linarith

lemma desired_three (x : ℚ) :
    desired_replicas_with_hysteresis 3 x =
      some (if 60 ≤ x then (if x < 100 then 4 else 5)
            else if x < 25 then (if 8 ≤ x then 2 else 1) else 3) := by
  simp only [desired_replicas_with_hysteresis, RPS_THRESHOLDS, geUp, ltUp, scanUp, scanDown,
    upRange, downRange, MAX_REPLICAS, MIN_REPLICAS]
  norm_num [List.range']
  split_ifs <;> first | rfl | linarith

lemma desired_four (x : ℚ) :
    desired_replicas_with_hysteresis 4 x =
      some (if 100 ≤ x then 5
            else if x < 50 then (if 25 ≤ x then 3 else if 8 ≤ x then 2 else 1) else 4) := by
  simp only [desired_replicas_with_hysteresis, RPS_THRESHOLDS, geUp, ltUp, scanUp, scanDown,
    upRange, downRange, MAX_REPLICAS, MIN_REPLICAS]
  norm_num [List.range']
  split_ifs <;> first | rfl | linarith

lemma desired_five (x : ℚ) :
    desired_replicas_with_hysteresis 5 x =
      some (if x < 90 then (if 50 ≤ x then 4 else if 25 ≤ x then 3 else if 8 ≤ x then 2 else 1)
            else 5) := by
  simp only [desired_replicas_with_hysteresis, RPS_THRESHOLDS, geUp, ltUp, scanUp, scanDown,
    upRange, downRange, MAX_REPLICAS, MIN_REPLICAS]
  norm_num [List.range']
  split_ifs <;> first | rfl | linarith

lemma upQualifies_iff (x : ℚ) (r : ℕ) :
    upQualifies x r ↔
      (r = 1 ∧ x < 10) ∨ (r = 2 ∧ x < 30) ∨ (r = 3 ∧ x < 60) ∨ (r = 4 ∧ x < 100) ∨ r = 5 := by
  constructor
  · rintro ⟨u, d, hu, hlt⟩
    rcases table_dom hu with h | h | h | h | h <;> subst h <;>
      simp [RPS_THRESHOLDS] at hu <;>
      simp [← hu.1, ltUp] at hlt <;> simp [hlt]
  · rintro (⟨h, hx⟩ | ⟨h, hx⟩ | ⟨h, hx⟩ | ⟨h, hx⟩ | h) <;> subst h
    · exact ⟨some 10, 0, rfl, by simpa [ltUp] using hx⟩
    · exact ⟨some 30, 8, rfl, by simpa [ltUp] using hx⟩
    · exact ⟨some 60, 25, rfl, by simpa [ltUp] using hx⟩
    · exact ⟨some 100, 50, rfl, by simpa [ltUp] using hx⟩
    · exact ⟨none, 90, rfl, rfl⟩

lemma smoothed_foldl (alpha : ℚ) (samples : List ℚ) : ∀ st : ServiceState,
    (samples.foldl (update_smoothed_rps alpha) st).smoothed_rps =
      samples.foldl (ema_update alpha) st.smoothed_rps := by
  induction samples with
  | nil => intro st; rfl
  | cons s rest ih =>
    intro st
    simp only [List.foldl_cons]
    rw [ih]
    rfl

lemma ema_foldl_pos (alpha : ℚ) (h0 : 0 < alpha) (h1 : alpha ≤ 1) :
    ∀ (xs : List ℚ) (a : ℚ), 0 < a → (∀ z ∈ xs, 0 < z) →
      0 < xs.foldl (ema_update alpha) a := by
  intro xs
  induction xs with
  | nil => intro a ha _; simpa using ha
  | cons z rest ih =>
    intro a ha hall
    have hz : 0 < z := hall z (by simp)
    have hstep : 0 < ema_update alpha a z := by
      unfold ema_update
      rw [if_neg (ne_of_gt ha)]
      have h2 : 0 < alpha * z := mul_pos h0 hz
      have h3 : 0 ≤ (1 - alpha) * a := mul_nonneg (by linarith) ha.le
      linarith
    exact ih (ema_update alpha a z) hstep (fun w hw => hall w (by simp [hw]))

lemma smoothedAfter_pos (alpha : ℚ) (h0 : 0 < alpha) (h1 : alpha ≤ 1)
    (pre : List ℚ) (hne : pre ≠ []) (hpos : ∀ z ∈ pre, 0 < z) :
    0 < smoothedAfter alpha pre := by
  cases pre with
  | nil => exact absurd rfl hne
  | cons z rest =>
    have hz : 0 < z := hpos z (by simp)
    unfold smoothedAfter
    rw [smoothed_foldl]
    simp only [List.foldl_cons]
    have hini : ema_update alpha initServiceState.smoothed_rps z = z := by
      simp [ema_update, initServiceState]
    rw [hini]
    exact ema_foldl_pos alpha h0 h1 rest z hz (fun w hw => hpos w (by simp [hw]))

lemma should_scale_true_of_ne {s : ServiceState} {t : ℤ} {d : ℕ}
    (hne : d ≠ s.current_replicas) (h : should_scale s t d = true) :
    s.last_scale_time + COOLDOWN_PERIOD ≤ t := by
  unfold should_scale at h
  rw [if_neg hne] at h
  by_cases hlt : t - s.last_scale_time < COOLDOWN_PERIOD
  · rw [if_pos hlt] at h
    exact absurd h (by simp)
  · linarith [not_lt.mp hlt]

lemma stepRow_last {s : ServiceState} {t : ℤ} {raw : ℚ} {s1 : ServiceState} {row : Row}
    (h : stepRow s t raw = some (s1, row)) :
    (row.action.applied = true ∧ s.last_scale_time + COOLDOWN_PERIOD ≤ t ∧
        s1.last_scale_time = t)
    ∨ (row.action.applied = false ∧ s1.last_scale_time = s.last_scale_time) := by
  simp only [stepRow] at h
  split at h
  · exact absurd h (by simp)
  · next d hdes =>
    split_ifs at h with h1 h2 h3 h4
    · obtain ⟨hs, hr⟩ := Prod.mk.inj (Option.some.inj h)
      subst hs; subst hr
      left
      exact ⟨rfl, should_scale_true_of_ne (ne_of_gt h1) h2, rfl⟩
    · obtain ⟨hs, hr⟩ := Prod.mk.inj (Option.some.inj h)
      subst hs; subst hr
      right
      exact ⟨rfl, rfl⟩
    · obtain ⟨hs, hr⟩ := Prod.mk.inj (Option.some.inj h)
      subst hs; subst hr
      left
      exact ⟨rfl, should_scale_true_of_ne (ne_of_lt h3) h4, rfl⟩
    · obtain ⟨hs, hr⟩ := Prod.mk.inj (Option.some.inj h)
      subst hs; subst hr
      right
      exact ⟨rfl, rfl⟩
    · obtain ⟨hs, hr⟩ := Prod.mk.inj (Option.some.inj h)
      subst hs; subst hr
      right
      exact ⟨rfl, rfl⟩

lemma runBatch_sep : ∀ (rows : List (ℤ × ℚ)) (s s2 : ServiceState) (ts : List ℤ),
    runBatch s rows = some (s2, ts) →
    (∀ u ∈ ts, s.last_scale_time + COOLDOWN_PERIOD ≤ u) ∧
      ts.Pairwise (fun a b => a + COOLDOWN_PERIOD ≤ b) := by
  intro rows
  induction rows with
  | nil =>
    intro s s2 ts h
    obtain ⟨_, hts⟩ := Prod.mk.inj (Option.some.inj h)
    subst hts
    exact ⟨by simp, by simp⟩
  | cons hd rest ih =>
    intro s s2 ts h
    obtain ⟨t, raw⟩ := hd
    simp only [runBatch] at h
    cases hstep : stepRow s t raw with
    | none => rw [hstep] at h; exact absurd h (by simp)
    | some pr =>
      obtain ⟨s1, row⟩ := pr
      rw [hstep] at h
      dsimp only at h
      cases hrec : runBatch s1 rest with
      | none => rw [hrec] at h; exact absurd h (by simp)
      | some pr2 =>
        obtain ⟨s2x, ts1⟩ := pr2
        rw [hrec] at h
        dsimp only at h
        obtain ⟨hs2, hts⟩ := Prod.mk.inj (Option.some.inj h)
        obtain ⟨hall, hpw⟩ := ih s1 s2x ts1 hrec
        rcases stepRow_last hstep with ⟨happ, hsep, hlast⟩ | ⟨happ, hlast⟩
        · rw [happ] at hts
          rw [if_pos rfl] at hts
          subst hts
          constructor
          · intro u hu
            rcases List.mem_cons.mp hu with rfl | hu2
            · exact hsep
            · have := hall u hu2
              rw [hlast] at this
              have hcool : (0 : ℤ) < COOLDOWN_PERIOD := by decide
              linarith
          · refine List.Pairwise.cons ?_ hpw
            intro u hu2
            have := hall u hu2
            rw [hlast] at this
            have hcool : (0 : ℤ) < COOLDOWN_PERIOD := by decide
            linarith
        · rw [happ] at hts
          rw [if_neg (by simp)] at hts
          subst hts
          refine ⟨?_, hpw⟩
          intro u hu
          have := hall u hu
          rw [hlast] at this
          exact this

lemma nodup_countP_eq_one {α : Type} [DecidableEq α] :
    ∀ (l : List α) (k : α), l.Nodup → k ∈ l →
      l.countP (fun x => decide (x = k)) = 1 := by
  intro l
  induction l with
  | nil => intro k _ hk; simp at hk
  | cons a rest ih =>
    intro k hnd hk
    rcases List.mem_cons.mp hk with rfl | hk2
    · rw [List.countP_cons_of_pos _ _ (by simp)]
      have : rest.countP (fun x => decide (x = k)) = 0 := by
        rw [List.countP_eq_zero]
        intro x hx
        simp only [decide_eq_true_eq]
        rintro rfl
        exact (List.nodup_cons.mp hnd).1 hx
      omega
    · have hne : a ≠ k := by
        rintro rfl
        exact (List.nodup_cons.mp hnd).1 hk2
      rw [List.countP_cons_of_neg _ _ (by simp [hne])]
      exact ih k (List.nodup_cons.mp hnd).2 hk2

/- ===================== claim theorems ===================== -/

/-- C2 counterexample: the claim says the first real scaling action of a
freshly created service state is permitted at every timestamp, but the
fresh state carries last_scale_time = 0, so an attempt at time 30 to move
from 1 to 2 replicas is blocked by the cooldown gate. -/
theorem C2_counterexample : should_scale initServiceState 30 2 = false := by decide

/-- C2 amended: for a freshly created service state the cooldown gate
permits an action exactly when the desired count equals the current count
(a no-op) or the attempt time is at least COOLDOWN_PERIOD past the
initial last-scale timestamp 0. -/
theorem C2_theorem (t : ℤ) (d : ℕ) :
    should_scale initServiceState t d = true ↔
      d = initServiceState.current_replicas ∨ COOLDOWN_PERIOD ≤ t := by
  rcases eq_or_ne d initServiceState.current_replicas with h | h
  · simp [should_scale, h]
  · rw [should_scale, if_neg h]
    constructor
    · intro ht
      by_cases hlt : t - initServiceState.last_scale_time < COOLDOWN_PERIOD
      · rw [if_pos hlt] at ht
        exact absurd ht (by simp)
      · right
        have := not_lt.mp hlt
        simp only [initServiceState] at this
        omega
    · rintro (h1 | h1)
      · exact absurd h1 h
      · rw [if_neg]
        simp only [initServiceState]
        omega

/-- C4: the claim promises that the hysteresis computation returns a
value in the configured range for every current count in
[MIN_REPLICAS, MAX_REPLICAS], but the threshold table has no entry for
counts 6 through 10, so at current = 6 the lookup raises KeyError
(modelled as none) instead of returning. -/
theorem C4_theorem :
    MIN_REPLICAS ≤ 6 ∧ 6 ≤ MAX_REPLICAS ∧
      desired_replicas_with_hysteresis 6 0 = none := by decide

/-- C8 counterexample: the claim says a failed replica-count lookup
leaves the service state untouched, but the smoothing update has already
run before the lookup, so the state returned by process_service differs
from the input state. -/
theorem C8_counterexample :
    process_service 1 initLiveServiceState (some 5) none true 1000 ≠
      initLiveServiceState := by decide

/-- C8 amended: when the replica-count lookup fails, scaling is skipped
for the iteration, leaving replica count, last-scale timestamp and
history untouched, but the smoothing step has already updated the raw and
smoothed rate fields (and the service name is rewritten). -/
theorem C8_theorem (svc : ℕ) (st : LiveServiceState) (r : ℚ) (ok : Bool) (now : ℚ) :
    (process_service svc st (some r) none ok now).current_replicas = st.current_replicas ∧
    (process_service svc st (some r) none ok now).last_scale_time = st.last_scale_time ∧
    (process_service svc st (some r) none ok now).scale_history = st.scale_history ∧
    (process_service svc st (some r) none ok now).raw_rps = r ∧
    (process_service svc st (some r) none ok now).smoothed_rps =
      ema_update EMA_ALPHA st.smoothed_rps r ∧
    (process_service svc st (some r) none ok now).service_name = svc :=
  ⟨rfl, rfl, rfl, rfl, rfl, rfl⟩

/-- C10: the lazily created service state has replica count 1, zero raw
and smoothed rate, last-scale timestamp 0 and empty history, and in batch
mode the first decision for an entity is computed against a current
replica count of 1: the first emitted row records prev_replicas = 1 and a
smoothed rate equal to the first raw sample. -/
theorem C10_theorem :
    initServiceState.current_replicas = 1 ∧ initServiceState.raw_rps = 0 ∧
    initServiceState.smoothed_rps = 0 ∧ initServiceState.last_scale_time = 0 ∧
    initServiceState.scale_history = [] ∧
    ∀ (t : ℤ) (raw : ℚ), ∃ st row, stepRow initServiceState t raw = some (st, row) ∧
      row.prev_replicas = 1 ∧ row.smoothed_rps = raw := by
  refine ⟨rfl, rfl, rfl, rfl, rfl, ?_⟩
  intro t raw
  have hsm : (update_smoothed_rps EMA_ALPHA initServiceState raw).smoothed_rps = raw := by
    simp [update_smoothed_rps, ema_update, initServiceState]
  have hcur : (update_smoothed_rps EMA_ALPHA initServiceState raw).current_replicas = 1 := rfl
  simp only [stepRow, hsm, hcur, desired_one raw]
  split_ifs <;> exact ⟨_, _, rfl, rfl, rfl⟩

/-- C6: a smoothed rate exactly equal to the scale-up threshold of the
current count triggers the scale-up path (the comparison is inclusive),
while a smoothed rate exactly equal to the scale-down threshold does not
trigger the scale-down path (the comparison is strict), so the current
count is returned unchanged in the latter case. -/
theorem C6_theorem :
    (∀ (c : ℕ) (q d : ℚ), RPS_THRESHOLDS c = some (some q, d) →
      ∃ r, desired_replicas_with_hysteresis c q = some r ∧ c < r) ∧
    (∀ (c : ℕ) (u : Option ℚ) (d : ℚ), RPS_THRESHOLDS c = some (u, d) →
      desired_replicas_with_hysteresis c d = some c) := by
  constructor
  · intro c q d h
    rcases table_dom h with rfl | rfl | rfl | rfl | rfl <;>
      simp only [RPS_THRESHOLDS, Option.some.injEq, Prod.mk.injEq] at h
    · obtain ⟨hq, -⟩ := h
      obtain rfl := hq.symm
      exact ⟨2, by decide, by decide⟩
    · obtain ⟨hq, -⟩ := h
      obtain rfl := hq.symm
      exact ⟨3, by decide, by decide⟩
    · obtain ⟨hq, -⟩ := h
      obtain rfl := hq.symm
      exact ⟨4, by decide, by decide⟩
    · obtain ⟨hq, -⟩ := h
      obtain rfl := hq.symm
      exact ⟨5, by decide, by decide⟩
    · exact absurd h.1 (by simp)
  · intro c u d h
    rcases table_dom h with rfl | rfl | rfl | rfl | rfl <;>
      simp only [RPS_THRESHOLDS, Option.some.injEq, Prod.mk.injEq] at h <;>
      obtain ⟨-, hd⟩ := h
    · rw [← hd]; decide
    · rw [← hd]; decide
    · rw [← hd]; decide
    · rw [← hd]; decide
    · rw [← hd]; decide

/-- C6 witness: at 2 replicas a rate of exactly 30 (the scale-up
threshold) scales up, and a rate of exactly 8 (the scale-down threshold)
returns 2 unchanged. -/
theorem C6_witness :
    (∃ r, desired_replicas_with_hysteresis 2 30 = some r ∧ 2 < r) ∧
      desired_replicas_with_hysteresis 2 8 = some 2 :=
  ⟨C6_theorem.1 2 30 8 rfl, C6_theorem.2 2 (some 30) 8 rfl⟩

/-- C7: with the current count fixed inside the threshold table domain,
the desired count computed by the hysteresis function is monotone in the
smoothed rate. -/
theorem C7_theorem (c : ℕ) (hdom : (RPS_THRESHOLDS c).isSome = true) (x y : ℚ)
    (hxy : x ≤ y) (rx ry : ℕ)
    (hx : desired_replicas_with_hysteresis c x = some rx)
    (hy : desired_replicas_with_hysteresis c y = some ry) : rx ≤ ry := by
  obtain ⟨p, hp⟩ := Option.isSome_iff_exists.mp hdom
  rcases table_dom hp with rfl | rfl | rfl | rfl | rfl
  · rw [desired_one] at hx hy
    obtain rfl := Option.some.inj hx
    obtain rfl := Option.some.inj hy
    split_ifs <;> first | omega | linarith
  · rw [desired_two] at hx hy
    obtain rfl := Option.some.inj hx
    obtain rfl := Option.some.inj hy
    split_ifs <;> first | omega | linarith
  · rw [desired_three] at hx hy
    obtain rfl := Option.some.inj hx
    obtain rfl := Option.some.inj hy
    split_ifs <;> first | omega | linarith
  · rw [desired_four] at hx hy
    obtain rfl := Option.some.inj hx
    obtain rfl := Option.some.inj hy
    split_ifs <;> first | omega | linarith
  · rw [desired_five] at hx hy
    obtain rfl := Option.some.inj hx
    obtain rfl := Option.some.inj hy
    split_ifs <;> first | omega | linarith

/-- C7 witness: at 1 replica, rates 5 and 20 give desired counts 1 and 2,
and monotonicity orders them. -/
theorem C7_witness :
    desired_replicas_with_hysteresis 1 5 = some 1 ∧
      desired_replicas_with_hysteresis 1 20 = some 2 ∧ (1 : ℕ) ≤ 2 :=
  ⟨by decide, by decide,
    C7_theorem 1 (by decide) 5 20 (by norm_num) 1 2 (by decide) (by decide)⟩

/-- C1 counterexample: with weight one half and samples 0 then 1, the
claimed recurrence predicts one half for the second stored value, but the
zero first sample leaves the smoothed field at the uninitialized sentinel
zero, so the second call re-initializes and stores 1. -/
theorem C1_counterexample :
    ((0 : ℚ) < 1/2 ∧ (1 : ℚ)/2 ≤ 1) ∧
      smoothedAfter (1/2) [0, 1] ≠
        (1/2 : ℚ) * 1 + (1 - 1/2) * smoothedAfter (1/2) [0] := by
  norm_num [smoothedAfter, update_smoothed_rps, ema_update, initServiceState]

/-- C1 amended: for any weight in (0,1] the first stored smoothed value
equals the first sample, and as long as all earlier samples are strictly
positive (so the stored value never re-enters the zero sentinel) each
later stored value obeys the exponential smoothing recurrence. -/
theorem C1_theorem (alpha : ℚ) (h0 : 0 < alpha) (h1 : alpha ≤ 1) :
    (∀ s : ℚ, smoothedAfter alpha [s] = s) ∧
    ∀ (pre : List ℚ) (s : ℚ), pre ≠ [] → (∀ z ∈ pre, 0 < z) →
      smoothedAfter alpha (pre ++ [s]) =
        alpha * s + (1 - alpha) * smoothedAfter alpha pre := by
  constructor
  · intro s
    simp [smoothedAfter, update_smoothed_rps, ema_update, initServiceState]
  · intro pre s hne hpos
    have hp : 0 < smoothedAfter alpha pre := smoothedAfter_pos alpha h0 h1 pre hne hpos
    unfold smoothedAfter
    rw [List.foldl_append]
    simp only [List.foldl_cons, List.foldl_nil]
    show ema_update alpha (smoothedAfter alpha pre) s =
      alpha * s + (1 - alpha) * smoothedAfter alpha pre
    unfold ema_update
    rw [if_neg (ne_of_gt hp)]

/-- C1 witness: with weight one half and positive history sample 1
followed by sample 2, the stored value is the smoothing recurrence
value. -/
theorem C1_witness :
    smoothedAfter (1/2) ([1] ++ [2]) =
      (1/2 : ℚ) * 2 + (1 - 1/2) * smoothedAfter (1/2) [1] :=
  (C1_theorem (1/2) (by norm_num) (by norm_num)).2 [1] 2 (by simp) (by norm_num)

/-- C5: whenever the scale-up path triggers (the smoothed rate meets the
scale-up threshold of the current count and the current count is below
MAX_REPLICAS), the computation returns the smallest replica count above
the current one, within the bound, whose scale-up threshold strictly
exceeds the smoothed rate, so one decision can jump several levels. -/
theorem C5_theorem (c : ℕ) (x : ℚ) (u : Option ℚ) (d : ℚ)
    (hc : RPS_THRESHOLDS c = some (u, d)) (hup : geUp x u = true)
    (hmax : c < MAX_REPLICAS) :
    ∃ r, desired_replicas_with_hysteresis c x = some r ∧ c < r ∧ r ≤ MAX_REPLICAS ∧
      upQualifies x r ∧ ∀ s, c < s → s ≤ MAX_REPLICAS → upQualifies x s → r ≤ s := by
  rcases table_dom hc with rfl | rfl | rfl | rfl | rfl <;>
    simp only [RPS_THRESHOLDS, Option.some.injEq, Prod.mk.injEq] at hc
  · obtain ⟨hu, -⟩ := hc
    rw [← hu] at hup
    simp only [geUp, decide_eq_true_eq] at hup
    rcases lt_or_le x 30 with h30 | h30
    · refine ⟨2, ?_, by omega, by decide,
        (upQualifies_iff x 2).mpr (Or.inr (Or.inl ⟨rfl, h30⟩)), ?_⟩
      · rw [desired_one, if_neg (by linarith), if_pos h30]
      · intro s hs1 _ _
        omega
    · rcases lt_or_le x 60 with h60 | h60
      · refine ⟨3, ?_, by omega, by decide,
          (upQualifies_iff x 3).mpr (Or.inr (Or.inr (Or.inl ⟨rfl, h60⟩))), ?_⟩
        · rw [desired_one, if_neg (by linarith), if_neg (by linarith), if_pos h60]
        · intro s hs1 hs2 hq
          rw [upQualifies_iff] at hq
          rcases hq with ⟨rfl, hx2⟩ | ⟨rfl, hx2⟩ | ⟨rfl, hx2⟩ | ⟨rfl, hx2⟩ | rfl
          · omega
          · linarith
          · omega
          · omega
          · omega
      · rcases lt_or_le x 100 with h100 | h100
        · refine ⟨4, ?_, by omega, by decide,
            (upQualifies_iff x 4).mpr (Or.inr (Or.inr (Or.inr (Or.inl ⟨rfl, h100⟩)))), ?_⟩
          · rw [desired_one, if_neg (by linarith), if_neg (by linarith),
              if_neg (by linarith), if_pos h100]
          · intro s hs1 hs2 hq
            rw [upQualifies_iff] at hq
            rcases hq with ⟨rfl, hx2⟩ | ⟨rfl, hx2⟩ | ⟨rfl, hx2⟩ | ⟨rfl, hx2⟩ | rfl
            · omega
            · linarith
            · linarith
            · omega
            · omega
        · refine ⟨5, ?_, by omega, by decide,
            (upQualifies_iff x 5).mpr (Or.inr (Or.inr (Or.inr (Or.inr rfl)))), ?_⟩
          · rw [desired_one, if_neg (by linarith), if_neg (by linarith),
              if_neg (by linarith), if_neg (by linarith)]
          · intro s hs1 hs2 hq
            rw [upQualifies_iff] at hq
            rcases hq with ⟨rfl, hx2⟩ | ⟨rfl, hx2⟩ | ⟨rfl, hx2⟩ | ⟨rfl, hx2⟩ | rfl
            · omega
            · linarith
            · linarith
            · linarith
            · omega
  · obtain ⟨hu, -⟩ := hc
    rw [← hu] at hup
    simp only [geUp, decide_eq_true_eq] at hup
    rcases lt_or_le x 60 with h60 | h60
    · refine ⟨3, ?_, by omega, by decide,
        (upQualifies_iff x 3).mpr (Or.inr (Or.inr (Or.inl ⟨rfl, h60⟩))), ?_⟩
      · rw [desired_two, if_pos hup, if_pos h60]
      · intro s hs1 _ _
        omega
    · rcases lt_or_le x 100 with h100 | h100
      · refine ⟨4, ?_, by omega, by decide,
          (upQualifies_iff x 4).mpr (Or.inr (Or.inr (Or.inr (Or.inl ⟨rfl, h100⟩)))), ?_⟩
        · rw [desired_two, if_pos hup, if_neg (by linarith), if_pos h100]
        · intro s hs1 hs2 hq
          rw [upQualifies_iff] at hq
          rcases hq with ⟨rfl, hx2⟩ | ⟨rfl, hx2⟩ | ⟨rfl, hx2⟩ | ⟨rfl, hx2⟩ | rfl
          · omega
          · omega
          · linarith
          · omega
          · omega
      · refine ⟨5, ?_, by omega, by decide,
          (upQualifies_iff x 5).mpr (Or.inr (Or.inr (Or.inr (Or.inr rfl)))), ?_⟩
        · rw [desired_two, if_pos hup, if_neg (by linarith), if_neg (by linarith)]
        · intro s hs1 hs2 hq
          rw [upQualifies_iff] at hq
          rcases hq with ⟨rfl, hx2⟩ | ⟨rfl, hx2⟩ | ⟨rfl, hx2⟩ | ⟨rfl, hx2⟩ | rfl
          · omega
          · omega
          · linarith
          · linarith
          · omega
  · obtain ⟨hu, -⟩ := hc
    rw [← hu] at hup
    simp only [geUp, decide_eq_true_eq] at hup
    rcases lt_or_le x 100 with h100 | h100
    · refine ⟨4, ?_, by omega, by decide,
        (upQualifies_iff x 4).mpr (Or.inr (Or.inr (Or.inr (Or.inl ⟨rfl, h100⟩)))), ?_⟩
      · rw [desired_three, if_pos hup, if_pos h100]
      · intro s hs1 _ _
        omega
    · refine ⟨5, ?_, by omega, by decide,
        (upQualifies_iff x 5).mpr (Or.inr (Or.inr (Or.inr (Or.inr rfl)))), ?_⟩
      · rw [desired_three, if_pos hup, if_neg (by linarith)]
      · intro s hs1 hs2 hq
        rw [upQualifies_iff] at hq
        rcases hq with ⟨rfl, hx2⟩ | ⟨rfl, hx2⟩ | ⟨rfl, hx2⟩ | ⟨rfl, hx2⟩ | rfl
        · omega
        · omega
        · omega
        · linarith
        · omega
  · obtain ⟨hu, -⟩ := hc
    rw [← hu] at hup
    simp only [geUp, decide_eq_true_eq] at hup
    refine ⟨5, ?_, by omega, by decide,
      (upQualifies_iff x 5).mpr (Or.inr (Or.inr (Or.inr (Or.inr rfl)))), ?_⟩
    · rw [desired_four, if_pos hup]
    · intro s hs1 _ _
      omega
  · obtain ⟨hu, -⟩ := hc
    rw [← hu] at hup
    exact absurd hup (by simp [geUp])

/-- C5 witness: at 1 replica with smoothed rate 35, which meets the
scale-up threshold 10, the computation returns 3, the least level whose
scale-up threshold exceeds 35. -/
theorem C5_witness :
    ∃ r, desired_replicas_with_hysteresis 1 35 = some r ∧ 1 < r ∧ r ≤ MAX_REPLICAS ∧
      upQualifies 35 r ∧
      ∀ s, 1 < s → s ≤ MAX_REPLICAS → upQualifies 35 s → r ≤ s :=
  C5_theorem 1 35 (some 10) 0 rfl (by decide) (by decide)

/-- C3: in a batch run for one service starting from the fresh state, the
time buckets of any two applied scaling actions are at least
COOLDOWN_PERIOD apart. -/
theorem C3_theorem (rows : List (ℤ × ℚ)) (ts : List ℤ)
    (h : appliedTimes rows = some ts) :
    ts.Pairwise (fun a b => a + COOLDOWN_PERIOD ≤ b) := by
  unfold appliedTimes at h
  cases hrun : runBatch initServiceState rows with
  | none => rw [hrun] at h; exact absurd h (by simp)
  | some pr =>
    rw [hrun] at h
    obtain ⟨s2, ts2⟩ := pr
    simp only [Option.map_some'] at h
    obtain rfl := Option.some.inj h
    exact (runBatch_sep rows initServiceState s2 ts2 hrun).2

/-- C3 witness: a single applied upscale at bucket 60 satisfies the
separation property. -/
theorem C3_witness :
    appliedTimes [(60, 15)] = some [60] ∧
      List.Pairwise (fun (a b : ℤ) => a + COOLDOWN_PERIOD ≤ b) [60] :=
  ⟨by decide, C3_theorem [(60, 15)] [60] (by decide)⟩

/-- C9: for every (bucket, entity) key present in the input, the grouped
table holds exactly one row for that key (so the engine is invoked once
for it), and that row carries the sum of the request rates of all input
rows of that key. -/
theorem C9_theorem (rows : List InputRow) (k : ℤ × ℕ)
    (hk : k ∈ rows.map rowKey) :
    (aggregate rows).countP (fun e => decide (e.1 = k)) = 1 ∧
      (k, totalFor rows k) ∈ aggregate rows := by
  have hperm :
      (aggregate rows).Perm
        (((rows.map rowKey).dedup).map (fun k2 => (k2, totalFor rows k2))) :=
    List.mergeSort_perm _ _
  constructor
  · rw [hperm.countP_eq]
    rw [List.countP_map]
    have hfun : ((fun e : (ℤ × ℕ) × ℚ => decide (e.1 = k)) ∘
        (fun k2 => (k2, totalFor rows k2))) = fun k2 => decide (k2 = k) := by
      funext k2
      simp
    rw [hfun]
    exact nodup_countP_eq_one _ k (List.nodup_dedup _) (List.mem_dedup.mpr hk)
  · rw [hperm.mem_iff]
    exact List.mem_map_of_mem _ (List.mem_dedup.mpr hk)

/-- C9 witness: two rows for entity 7 in bucket 0 with rates 3 and 4
produce exactly one grouped row for the key, carrying their sum. -/
theorem C9_witness :
    (aggregate [⟨7, 0, 3⟩, ⟨7, 0, 4⟩]).countP
        (fun e => decide (e.1 = ((0 : ℤ), (7 : ℕ)))) = 1 ∧
      (((0 : ℤ), (7 : ℕ)), totalFor [⟨7, 0, 3⟩, ⟨7, 0, 4⟩] ((0 : ℤ), (7 : ℕ))) ∈
        aggregate [⟨7, 0, 3⟩, ⟨7, 0, 4⟩] :=
  C9_theorem [⟨7, 0, 3⟩, ⟨7, 0, 4⟩] ((0 : ℤ), (7 : ℕ))
    (by simp [rowKey, bucketOf])

end Autoscaler
